import Mathlib

/-!
# Verification of the GAP admission pipeline core

Shallow embedding of the GAP repository's safe archive extraction
(`tools/safe_io.py`), shard validator (`tools/validate.py`), duplicate
detector (`packages/gap-agent-sim/src/gap_agent/dedupe.py`) and admission
scorer (`tools/ingest_check.py`), together with theorems settling the
spec claims about them.

Conventions of the embedding:
* POSIX path strings are `List Char`; path components are `List Char`
  pieces not containing the separator.
* `pathlib.Path.resolve()` on a symlink-free filesystem is lexical
  normalisation (drop empty and `.` components, `..` pops the previous
  component, clamped at the filesystem root).
* Python exceptions are `Except String`; a returned error value is the
  exception message (or a fixed tag standing for it).
* Machine integers are `Nat`/`Int`; Python float comparisons whose
  operands are exact small integers are modelled over `Rat`.

The file is organised as definitions first, theorems second.
-/

namespace GAP

/-! ## Definitions -/

/-! ### The path model (`tools/safe_io.py::_resolve_under`) -/

/-- Split a character string on the separator character `/`.
Mirror of the component decomposition `pathlib` performs on a POSIX
path string (empty pieces are produced by repeated or leading slashes
and discarded later by normalisation). -/
def splitGo : List Char → List Char → List (List Char)
  | acc, [] => [acc.reverse]
  | acc, ch :: rest =>
    if ch = '/' then acc.reverse :: splitGo [] rest
    else splitGo (ch :: acc) rest

/-- Components of a path string, split on `/`. -/
def splitOnSlash (s : List Char) : List (List Char) := splitGo [] s

/-- A path string is absolute when it starts with the separator. -/
def isAbsolute (s : List Char) : Bool :=
  match s with
  | '/' :: _ => true
  | _ => false

/-- The dot component `.` -/
def dotComp : List Char := ['.']

/-- The parent component `..` -/
def dotDotComp : List Char := ['.', '.']

/-- Worker for lexical normalisation: `stack` holds the already emitted
components in reverse order; `..` pops the most recent one (clamping at
the root, as `Path.resolve` does for absolute paths). -/
def normGo : List (List Char) → List (List Char) → List (List Char)
  | stack, [] => stack.reverse
  | stack, c :: rest =>
    if c = [] ∨ c = dotComp then normGo stack rest
    else if c = dotDotComp then normGo stack.tail rest
    else normGo (c :: stack) rest

/-- Lexical normalisation of an absolute path's component list:
the effect of `Path.resolve()` when no symlinks are involved. -/
def normalize (l : List (List Char)) : List (List Char) := normGo [] l

/-- Join components with `/` separators (no leading slash). -/
def joinComps : List (List Char) → List Char
  | [] => []
  | [c] => c
  | c :: rest => c ++ '/' :: joinComps rest

/-- Render an absolute path from its components, as `str(Path(...))`
does: a leading slash followed by the `/`-joined components; the empty
component list renders as the filesystem root `/`. -/
def render (l : List (List Char)) : List Char := '/' :: joinComps l

/-- Mirror of `tools/safe_io.py::_resolve_under`:

    root = root.resolve()
    dest = (root / child).resolve()
    if not str(dest).startswith(str(root) + os.sep):
        raise ValueError(f"unsafe path outside root: {child}")
    return dest

`root` is taken absolute (the callers pass resolved directories); an
absolute `child` replaces `root` entirely under `Path.__truediv__`,
a relative one is appended and the joined path renormalised.
`joinedComps` is the component list of `(root.resolve() / child).resolve()`. -/
def joinedComps (root child : List Char) : List (List Char) :=
  if isAbsolute child then normalize (splitOnSlash child)
  else normalize (normalize (splitOnSlash root) ++ splitOnSlash child)

/-- The guard of `_resolve_under`: return the resolved destination only
when the rendered root plus a separator is a string prefix of it. -/
def resolveUnder (root child : List Char) : Except String (List Char) :=
  let rootComps := normalize (splitOnSlash root)
  let destComps := joinedComps root child
  let rootStr := render rootComps
  let destStr := render destComps
  if List.isPrefixOf (rootStr ++ ['/']) destStr then Except.ok destStr
  else Except.error "unsafe path outside root"

/-- Mirror of `tools/safe_io.py::safe_resolve_path`, which just
delegates to `_resolve_under`. -/
def safeResolvePath (baseDir relativePath : List Char) : Except String (List Char) :=
  resolveUnder baseDir relativePath

/-! ### Safe archive extraction (`tools/safe_io.py`)

The extraction functions are modelled on the declared archive metadata
(the member lists `zf.infolist()` / `tf.getmembers()`), and return the
list of destination paths whose contents get written, paired with
`some errorMessage` when a `ValueError` aborts the extraction (the
writes performed before the abort are kept, mirroring the partially
populated destination directory). -/

def MAX_FILES : Nat := 10000

def MAX_TOTAL_BYTES : Nat := 2 * 1024 ^ 3

def MAX_EXPANSION : ℚ := 20

/-- One `zipfile.ZipInfo` record: declared name and sizes, and whether
the entry is a directory. -/
structure ZipEntry where
  filename : List Char
  file_size : Nat
  compress_size : Nat
  is_dir : Bool

/-- One `tarfile.TarInfo` record: declared name and size, and whether
the member is a regular file. -/
structure TarMember where
  name : List Char
  size : Nat
  is_reg : Bool

/-- Member-name screen used by both extractors:
`i.filename.startswith("/") or ".." in Path(i.filename).parts`. -/
def badMemberName (name : List Char) : Bool :=
  isAbsolute name || decide (dotDotComp ∈ splitOnSlash name)

/-- The per-entry extraction loop shared by both extractors: reject bad
member names, resolve the target under the destination via
`_resolve_under`, record the write, abort on the first failure. -/
def extractLoop (destDir : List Char) :
    List (List Char) → List (List Char) → List (List Char) × Option String
  | [], written => (written.reverse, none)
  | name :: rest, written =>
    if badMemberName name then (written.reverse, some "unsafe member")
    else
      match resolveUnder destDir name with
      | Except.error msg => (written.reverse, some msg)
      | Except.ok target => extractLoop destDir rest (target :: written)

/-- Mirror of `tools/safe_io.py::safe_extract_zip`: entry-count cap,
declared-total-size cap, expansion-ratio guard
(`total_uc / max(total_c, 1.0) > MAX_EXPANSION`, an exact rational
comparison here, with each entry's compressed size taken as
`compress_size or 1`; since `total_c` is a nonnegative integer,
`max(total_c, 1.0)` equals `Nat.max total_c 1`), then the extraction
loop. -/
def safeExtractZip (zipEntries : List ZipEntry) (destDir : List Char) :
    List (List Char) × Option String :=
  let files := zipEntries.filter (fun i => !i.is_dir)
  if files.length > MAX_FILES then ([], some "archive has too many files")
  else
    let total_uc := (files.map (fun i => i.file_size)).sum
    let total_c := (files.map (fun i =>
      if i.compress_size = 0 then 1 else i.compress_size)).sum
    if total_uc > MAX_TOTAL_BYTES then ([], some "archive too large")
    else if MAX_EXPANSION < mkRat total_uc (Nat.max total_c 1) then
      ([], some "suspicious expansion ratio")
    else extractLoop destDir (files.map (fun i => i.filename)) []

/-- Mirror of `tools/safe_io.py::safe_extract_tar`: regular-member
count cap and declared-total-size cap, then the extraction loop.
The source has no expansion-ratio guard on the TAR path. -/
def safeExtractTar (tarMembers : List TarMember) (destDir : List Char) :
    List (List Char) × Option String :=
  let members := tarMembers.filter (fun m => m.is_reg)
  if members.length > MAX_FILES then ([], some "archive has too many files")
  else if (members.map (fun m => m.size)).sum > MAX_TOTAL_BYTES then
    ([], some "archive too large")
  else extractLoop destDir (members.map (fun m => m.name)) []

/-! ### The controls QAT stage (`tools/validate.py`)

`GAPValidator.validate_controls` operates on the loaded timestamp
column (`ts_us`, the JSONL field `t_us` after renaming).  The loaded
column values are `int64`, embedded as `Int`. -/

/-- Exact rational division, kernel-computable.  `ratDiv a b = a / b`
(theorem `ratDiv_eq`); used to embed Python division of exactly
representable quantities. -/
def ratDiv (a b : ℚ) : ℚ := Rat.divInt (a.num * b.den) (a.den * b.num)

/-- `pandas.Series.is_monotonic_increasing`: NON-strict — true iff every
adjacent pair satisfies `≤` (equal neighbours are allowed). -/
def isMonotonicIncreasing : List Int → Bool
  | [] => true
  | [_] => true
  | a :: b :: rest => decide (a ≤ b) && isMonotonicIncreasing (b :: rest)

/-- Strict increase of adjacent pairs: what the spec's invariant
(\"t_us is strictly increasing\") requires. -/
def strictlyIncreasing : List Int → Bool
  | [] => true
  | [_] => true
  | a :: b :: rest => decide (a < b) && strictlyIncreasing (b :: rest)

def monotonicError : String := "QAT FAIL: Timestamps not strictly monotonic"

def driftWarningMsg : String := "Potential timestamp drift"

/-- `expected_samples = duration_minutes * 60 * 60` where
`duration_minutes = (ts.iloc[-1] - ts.iloc[0]) / (1_000_000 * 60)`.
The operands are `numpy.int64`/`numpy.float64`; for these timestamp
magnitudes the float arithmetic is exact, embedded over `ℚ` as the
single exact quotient `(tlast - first) * 3600 / 60000000`
(theorem `expectedSamples_eq` relates it to the source formula). -/
def expectedSamples (first tlast : Int) : ℚ :=
  Rat.divInt ((tlast - first) * 3600) 60000000

/-- The QAT checks of `GAPValidator.validate_controls` on the loaded
timestamp column: the monotonicity check appends `monotonicError` when
`is_monotonic_increasing` fails, and for more than one event the drift
heuristic compares `abs(actual - expected) / expected` against `0.1`.

The division is performed on `numpy.float64` scalars (a pandas `iloc`
on an int64 column yields `numpy.int64`, and dividing propagates to
`numpy.float64`), so a zero `expected_samples` yields `+inf` with a
`RuntimeWarning` — not a raised exception — and `inf > 0.1` is true:
the zero-denominator branch therefore records the drift warning.  The
stage completes normally on every loadable stream. -/
def controlsQat (ts : List Int) : List String × List String :=
  let errs := if isMonotonicIncreasing ts then [] else [monotonicError]
  let warns :=
    match ts with
    | t0 :: t1 :: rest =>
      let tlast := (t0 :: t1 :: rest).getLastD 0
      let expected := expectedSamples t0 tlast
      let actual := (t0 :: t1 :: rest).length
      if expected = 0 then [driftWarningMsg]
      else if mkRat 1 10 < ratDiv |(actual : ℚ) - expected| expected then
        [driftWarningMsg]
      else []
    | _ => []
  (errs, warns)

/-! ### Admission scorer (`tools/ingest_check.py::run_anti_sybil_checks`)

The risk scoring of the two minimum Hamming distances (lines 58-86):
sequential accumulation of video points and control points followed by
the threshold ladder. -/

structure AdmissionResult where
  risk_score : Nat
  risk_level : String
  action : String
  passed : Bool

/-- Mirror of the scoring block of `run_anti_sybil_checks`: the
`risk_score +=` accumulation and the `if/elif` threshold ladder; the
`anti_sybil_passed` flag is `action == "accept"`. -/
def runAntiSybilScore (videoMinDist controlsMinDist : Nat) : AdmissionResult :=
  let risk0 := 0
  let risk1 :=
    if videoMinDist ≤ 8 then risk0 + 40
    else if videoMinDist ≤ 16 then risk0 + 20
    else risk0
  let risk2 :=
    if controlsMinDist ≤ 8 then risk1 + 30
    else if controlsMinDist ≤ 16 then risk1 + 15
    else risk1
  if risk2 ≥ 80 then ⟨risk2, "high", "reject", false⟩
  else if risk2 ≥ 50 then ⟨risk2, "high", "flag", false⟩
  else if risk2 ≥ 30 then ⟨risk2, "medium", "review", false⟩
  else ⟨risk2, "low", "accept", true⟩

/-- The spec's closed-form description of the video contribution
(to be compared against the source scorer). -/
def specVideoPoints (d : Nat) : Nat :=
  if d ≤ 8 then 40 else if d ≤ 16 then 20 else 0

/-- The spec's closed-form description of the controls contribution. -/
def specControlPoints (d : Nat) : Nat :=
  if d ≤ 8 then 30 else if d ≤ 16 then 15 else 0

/-- The spec's action thresholds. -/
def specAction (score : Nat) : String :=
  if score ≥ 80 then "reject"
  else if score ≥ 50 then "flag"
  else if score ≥ 30 then "review"
  else "accept"

/-! ### The perceptual hash (`gap_agent/dedupe.py::phash`)

The DCT and resizing are OpenCV calls; the embedding covers what the
source does with the flattened coefficient block `dct_flat` (a list of
float32 coefficients, embedded as exact rationals): compute
`np.median(dct_flat[1:])` and threshold every coefficient of
`dct_flat` (the zero-frequency DC term included) against it. -/

/-- Insert into an ascending-sorted list (model of the sorting
underlying `np.median`). -/
def insertAsc (x : ℚ) : List ℚ → List ℚ
  | [] => [x]
  | y :: rest => if decide (x ≤ y) then x :: y :: rest else y :: insertAsc x rest

/-- Ascending insertion sort. -/
def sortAsc : List ℚ → List ℚ
  | [] => []
  | x :: rest => insertAsc x (sortAsc rest)

/-- `np.median`: middle element of the sorted data for odd length,
mean of the two middle elements for even length (0 for empty input,
where numpy returns nan). -/
def npMedian (l : List ℚ) : ℚ :=
  let s := sortAsc l
  if l.length % 2 = 1 then s.getD (l.length / 2) 0
  else ratDiv (s.getD (l.length / 2 - 1) 0 + s.getD (l.length / 2) 0) 2

/-- Little-endian bit packing: the source's
`hash_int |= (1 << i)` over `enumerate(hash_bits)`. -/
def bitsToNat : List Bool → Nat
  | [] => 0
  | b :: rest => (if b then 1 else 0) + 2 * bitsToNat rest

/-- The bitstring of `phash`: median over `dct_flat[1:]` (DC excluded),
then `1 if val > median else 0` for EVERY `val in dct_flat` —
including the DC term. -/
def phashBits (dct_flat : List ℚ) : List Bool :=
  let median := npMedian (dct_flat.drop 1)
  dct_flat.map (fun val => decide (median < val))

/-- The integer fingerprint returned by `phash`. -/
def phashInt (dct_flat : List ℚ) : Nat := bitsToNat (phashBits dct_flat)

/-! ### The fingerprint cache (`dedupe.py::update_cache`)

The cache file is a JSON object with `video_hashes` and
`control_hashes` lists.  The per-frame perceptual hashes and the
single control SimHash are computed by external libraries; the
embedding takes the computed values as inputs and covers the cache
update itself. -/

structure FingerprintCache where
  video_hashes : List Nat
  control_hashes : List Nat

/-- `if hash_val not in cache_data[...]: cache_data[...].append(hash_val)` -/
def addHashIfNew (l : List Nat) (h : Nat) : List Nat :=
  if h ∈ l then l else l ++ [h]

/-- Mirror of `update_cache`: fold the frame hashes into the video
set, then add the control hash (when controls produced features). -/
def updateCache (cache : FingerprintCache) (frameHashes : List Nat)
    (controlHash : Option Nat) : FingerprintCache :=
  let v := frameHashes.foldl addHashIfNew cache.video_hashes
  let c :=
    match controlHash with
    | some h => addHashIfNew cache.control_hashes h
    | none => cache.control_hashes
  ⟨v, c⟩

/-! ### The full validation run (`GAPValidator.validate_all`)

Embedded for the profile-independent instantiation
(`profile=None`, `strict=False`), in which
`validate_profile_specific` returns `True` without touching the
error/warning lists.  A shard is modelled by what the validator can
observe of it: which files exist, what the loaders produce for each,
and the file contents hashed by the integrity stage.  Long
interpolated message texts are kept as stable prefixes/tags. -/

/-- A loaded JSON value as the validator inspects it: a string (with
its value), a dict, or anything else (only the runtime type matters to
the field checks). -/
inductive PyVal where
  | str (s : String)
  | obj
  | other
deriving DecidableEq

def lookupAssoc {α : Type} (m : List (String × α)) (k : String) : Option α :=
  (m.find? (fun p => p.1 == k)).map (fun p => p.2)

/-- The loaded `controls.parquet` DataFrame: its column names and the
`ts_us` column. -/
structure ParquetData where
  columns : List String
  ts : List Int
deriving DecidableEq

/-- The DataFrame built from `controls.jsonl` (before the `t_us` →
`ts_us` rename): its column names and the timestamp column. -/
structure JsonlData where
  columns : List String
  ts : List Int
deriving DecidableEq

/-- File presence and sizes as `validate_file_structure` observes
them. -/
structure ShardFiles where
  metaJson : Bool
  hashesJson : Bool
  videoIvfSize : Option Nat
  videoMkvSize : Option Nat
  controlsParquet : Bool
  controlsJsonl : Bool
deriving DecidableEq

/-- A shard as observed by the validator: file structure, loader
outcomes (`none` models a raised load/parse error), and the on-disk
contents of the files referenced by the integrity manifest.
`hashesLoad = some none` models a loadable `hashes.json` without a
`sha256` section. -/
structure Shard where
  files : ShardFiles
  parquetData : Option ParquetData
  jsonlData : Option JsonlData
  metaLoad : Option (List (String × PyVal))
  hashesLoad : Option (Option (List (String × String)))
  fileContents : List (String × List Nat)

def MAX_VIDEO_BYTES : Nat := 512 * 1024 ^ 2

/-- Mirror of `validate_file_structure` with `profile=None`: required
files, exactly one recognised video file (two → warning; one →
size cap), and a controls file in either format (the profile-specific
format warning cannot trigger with no profile). -/
def validateFileStructureErrW (f : ShardFiles) : List String × List String :=
  let reqErrs :=
    (if f.metaJson then [] else ["Required file missing: meta.json"]) ++
    (if f.hashesJson then [] else ["Required file missing: hashes.json"])
  let vres :=
    match f.videoIvfSize, f.videoMkvSize with
    | none, none => (["No video file found"], ([] : List String))
    | some _, some _ => ([], ["Multiple video files found"])
    | some sz, none => (if sz > MAX_VIDEO_BYTES then ["video.ivf too large"] else [], [])
    | none, some sz => (if sz > MAX_VIDEO_BYTES then ["video.mkv too large"] else [], [])
  let cErrs := if f.controlsParquet || f.controlsJsonl then [] else ["No controls file found"]
  (reqErrs ++ vres.1 ++ cErrs, vres.2)

def metaRequiredFields : List (String × Bool) :=
  [("schema_version", true), ("session_id", true), ("title", false),
   ("capture", false), ("display", false), ("timing", false),
   ("privacy", false), ("rights", false)]

/-- `isinstance(meta[field], str)` resp. `isinstance(meta[field], dict)`. -/
def typeMatches (expectStr : Bool) (v : PyVal) : Bool :=
  match expectStr, v with
  | true, PyVal.str _ => true
  | false, PyVal.obj => true
  | _, _ => false

/-- The required-field loop of `validate_meta`, in iteration order. -/
def checkMetaFields : List (String × Bool) → List (String × PyVal) → List String
  | [], _ => []
  | (name, expectStr) :: rest, meta =>
    (match lookupAssoc meta name with
     | none => ["meta.json missing required field: " ++ name]
     | some v =>
       if typeMatches expectStr v then []
       else ["meta.json field " ++ name ++ " has wrong type"]) ++
    checkMetaFields rest meta

/-- `meta.get("schema_version") == "0.2.0"` (equality with a string
can only hold for a string value). -/
def schemaVersionOk (meta : List (String × PyVal)) : Bool :=
  match lookupAssoc meta "schema_version" with
  | some (PyVal.str s) => s == "0.2.0"
  | _ => false

/-- Mirror of `validate_meta` with `profile=None`.  `GAPLoader.load_meta`
itself raises `Unsupported schema version` when the loaded dict's
`schema_version` is not `0.2.0`, which `validate_meta` catches as a
load failure, so the field checks only run for the supported version
(making the stage's own version re-check unreachable but kept). -/
def validateMetaErrW (metaLoad : Option (List (String × PyVal))) :
    List String × List String :=
  match metaLoad with
  | none => (["Failed to load meta.json"], [])
  | some meta =>
    if schemaVersionOk meta then
      let fieldErrs := checkMetaFields metaRequiredFields meta
      let vErrs := if schemaVersionOk meta then [] else ["Unsupported schema_version"]
      (fieldErrs ++ vErrs, [])
    else (["Failed to load meta.json"], [])

/-- Mirror of `validate_controls` with `profile=None`.  The Parquet
branch delegates loading to `GAPLoader.load_controls`, which raises on
a read failure, a missing required column or a non-monotonic timestamp
column; a raise is caught as a load error.  A successful Parquet load
then passes the validator's own column and monotonicity checks (they
re-test what the loader established), leaving the QAT drift heuristic.
The JSONL branch checks `t_us`, renames it to `ts_us`, then checks the
Parquet-profile required columns and runs the QAT checks. -/
def validateControlsErrW (s : Shard) : List String × List String :=
  if s.files.controlsParquet then
    match s.parquetData with
    | none => (["Failed to load controls.parquet"], [])
    | some p =>
      if "ts_us" ∈ p.columns ∧ "player_id" ∈ p.columns ∧ "device" ∈ p.columns then
        if isMonotonicIncreasing p.ts then controlsQat p.ts
        else (["Failed to load controls.parquet"], [])
      else (["Failed to load controls.parquet"], [])
  else if s.files.controlsJsonl then
    match s.jsonlData with
    | none => (["Failed to load controls.jsonl"], [])
    | some j =>
      if "t_us" ∈ j.columns then
        let colErrs := (["player_id", "device"].filter
          (fun c => !(j.columns.contains c))).map
          (fun c => "Controls missing required column: " ++ c)
        let q := controlsQat j.ts
        (colErrs ++ q.1, q.2)
      else (["JSONL controls missing t_us timestamp field"], [])
  else (["No controls file found"], [])

/-- The per-entry loop of `validate_hashes` over the `sha256` mapping,
in iteration order: a referenced file that does not exist yields a
warning; an existing file whose recomputed digest differs from the
recorded one yields an error naming the file. -/
def hashCheckEntries (digest : List Nat → String)
    (files : List (String × List Nat)) :
    List (String × String) → List String × List String
  | [] => ([], [])
  | (fn, expected) :: rest =>
    let r := hashCheckEntries digest files rest
    match lookupAssoc files fn with
    | none => (r.1, ("Hash entry for non-existent file: " ++ fn) :: r.2)
    | some content =>
      if digest content = expected then r
      else (("Hash mismatch for " ++ fn ++ ": expected " ++ expected ++
        ", got " ++ digest content) :: r.1, r.2)

/-- Mirror of `validate_hashes`: load `hashes.json` (raise → error),
require the `sha256` section, then run the per-entry loop.  The
SHA-256 recomputation is `hashlib`; the embedding abstracts it as the
`digest` function applied to the file's bytes. -/
def validateHashesErrW (digest : List Nat → String)
    (files : List (String × List Nat))
    (hashesLoad : Option (Option (List (String × String)))) :
    List String × List String :=
  match hashesLoad with
  | none => (["Failed to load hashes.json"], [])
  | some none => (["hashes.json missing sha256 section"], [])
  | some (some mapping) => hashCheckEntries digest files mapping

/-- The validation report of `validate_all`: overall flag, accumulated
errors and warnings, and the per-stage booleans of the `checks`
mapping. -/
structure Report where
  valid : Bool
  errors : List String
  warnings : List String
  checkFileStructure : Bool
  checkMeta : Bool
  checkControls : Bool
  checkHashes : Bool
  checkProfile : Bool

/-- Mirror of `validate_all` with `profile=None`, `strict=False`:
`validate_file_structure` first; `meta`, `controls` and `hashes` run
only when it passed; `profile_specific` always runs (a no-op for
`profile=None`).  Each stage returns `len(self.errors) == 0` over the
ACCUMULATED error list at the time it finishes, and the report's
`valid` is the emptiness of the final accumulated list. -/
def validateAll (digest : List Nat → String) (s : Shard) : Report :=
  let fs := validateFileStructureErrW s.files
  let fsOk := fs.1.isEmpty
  let m := if fsOk then validateMetaErrW s.metaLoad else ([], [])
  let metaOk := if fsOk then (fs.1 ++ m.1).isEmpty else false
  let c := if fsOk then validateControlsErrW s else ([], [])
  let controlsOk := if fsOk then (fs.1 ++ m.1 ++ c.1).isEmpty else false
  let h := if fsOk then validateHashesErrW digest s.fileContents s.hashesLoad
    else ([], [])
  let hashesOk := if fsOk then (fs.1 ++ m.1 ++ c.1 ++ h.1).isEmpty else false
  let errors := fs.1 ++ m.1 ++ c.1 ++ h.1
  let warnings := fs.2 ++ m.2 ++ c.2 ++ h.2
  { valid := errors.isEmpty
    errors := errors
    warnings := warnings
    checkFileStructure := fsOk
    checkMeta := metaOk
    checkControls := controlsOk
    checkHashes := hashesOk
    checkProfile := true }

/-! ### C5: the integrity-hash stage -/

/-- One manifest entry is consistent: its file is absent, or the
recomputed digest matches the recorded one. -/
def hashEntryOk (digest : List Nat → String) (files : List (String × List Nat))
    (e : String × String) : Bool :=
  match lookupAssoc files e.1 with
  | some content => digest content == e.2
  | none => true

/-- A digest model for the C5 witness: it distinguishes the two file
contents used there. -/
def digestToy (c : List Nat) : String :=
  if c = [1] then "aaa" else "bbb"

/-- A concrete shard for C8: file structure fine; `meta.json` loads
but carries schema_version 0.1.0, so the meta stage records a load
error; `controls.parquet` loads with all required columns and
timestamps `[100, 100]`, so the controls stage records no error (and
one drift warning); an empty `sha256` manifest. -/
def cexShard : Shard :=
  { files :=
      { metaJson := true, hashesJson := true, videoIvfSize := some 1000,
        videoMkvSize := none, controlsParquet := true, controlsJsonl := false }
    parquetData := some ⟨["ts_us", "player_id", "device"], [100, 100]⟩
    jsonlData := none
    metaLoad := some [("schema_version", PyVal.str "0.1.0")]
    hashesLoad := some (some [])
    fileContents := [] }

example : resolveUnder "/tmp/base".toList "sub/f.txt".toList =
    Except.ok "/tmp/base/sub/f.txt".toList := by rfl

example : (resolveUnder "/tmp/base".toList "../../etc/passwd".toList).isOk = false := by
  decide

example : (resolveUnder "/tmp/base".toList "/etc/passwd".toList).isOk = false := by
  decide

example : (resolveUnder "/tmp/base".toList "a/../..".toList).isOk = false := by
  decide

example : (resolveUnder "/tmp/base".toList "".toList).isOk = false := by decide

/-! ### Properties of the path model -/

/-! ## Theorems

### Properties of the path model -/

theorem splitGo_no_slash (s : List Char) :
    ∀ acc, '/' ∉ acc → ∀ c ∈ splitGo acc s, '/' ∉ c := by
  induction s with
  | nil =>
    intro acc hacc c hc
    simp only [splitGo, List.mem_singleton] at hc
    subst hc
    simpa using hacc
  | cons ch rest ih =>
    intro acc hacc c hc
    simp only [splitGo] at hc
    by_cases hch : ch = '/'
    · subst hch
      rw [if_pos rfl] at hc
      rcases List.mem_cons.mp hc with hc1 | hc1
      · subst hc1; simpa using hacc
      · exact ih [] (by simp) c hc1
    · rw [if_neg hch] at hc
      refine ih (ch :: acc) ?_ c hc
      intro hmem
      rcases List.mem_cons.mp hmem with h | h
      · exact hch h.symm
      · exact hacc h

theorem splitOnSlash_no_slash (s : List Char) :
    ∀ c ∈ splitOnSlash s, '/' ∉ c :=
  splitGo_no_slash s [] (by simp)

theorem normGo_mem (l : List (List Char)) :
    ∀ stack, ∀ c ∈ normGo stack l, c ∈ stack ∨ c ∈ l := by
  induction l with
  | nil =>
    intro stack c hc
    simp only [normGo] at hc
    exact Or.inl (List.mem_reverse.mp hc)
  | cons x rest ih =>
    intro stack c hc
    simp only [normGo] at hc
    by_cases h1 : x = [] ∨ x = dotComp
    · rw [if_pos h1] at hc
      rcases ih stack c hc with h | h
      · exact Or.inl h
      · exact Or.inr (List.mem_cons_of_mem _ h)
    · rw [if_neg h1] at hc
      by_cases h2 : x = dotDotComp
      · rw [if_pos h2] at hc
        rcases ih stack.tail c hc with h | h
        · exact Or.inl (List.mem_of_mem_tail h)
        · exact Or.inr (List.mem_cons_of_mem _ h)
      · rw [if_neg h2] at hc
        rcases ih (x :: stack) c hc with h | h
        · rcases List.mem_cons.mp h with h | h
          · exact Or.inr (h ▸ List.mem_cons_self _ _)
          · exact Or.inl h
        · exact Or.inr (List.mem_cons_of_mem _ h)

theorem normGo_ne_nil (l : List (List Char)) :
    ∀ stack, (∀ x ∈ stack, x ≠ []) → ∀ c ∈ normGo stack l, c ≠ [] := by
  induction l with
  | nil =>
    intro stack hstack c hc
    simp only [normGo] at hc
    exact hstack c (List.mem_reverse.mp hc)
  | cons x rest ih =>
    intro stack hstack c hc
    simp only [normGo] at hc
    by_cases h1 : x = [] ∨ x = dotComp
    · rw [if_pos h1] at hc
      exact ih stack hstack c hc
    · rw [if_neg h1] at hc
      by_cases h2 : x = dotDotComp
      · rw [if_pos h2] at hc
        refine ih stack.tail ?_ c hc
        intro y hy
        exact hstack y (List.mem_of_mem_tail hy)
      · rw [if_neg h2] at hc
        refine ih (x :: stack) ?_ c hc
        intro y hy
        rcases List.mem_cons.mp hy with h | h
        · subst h
          intro hnil
          exact h1 (Or.inl hnil)
        · exact hstack y h

/-- The components produced by `normalize` are nonempty and free of the
separator whenever the input components are separator-free. -/
theorem normalize_props (l : List (List Char)) (hl : ∀ x ∈ l, '/' ∉ x) :
    ∀ c ∈ normalize l, c ≠ [] ∧ '/' ∉ c := by
  intro c hc
  refine ⟨normGo_ne_nil l [] (by simp) c hc, ?_⟩
  rcases normGo_mem l [] c hc with h | h
  · simp at h
  · exact hl c h

/-- Peeling one separator-delimited component off a string prefix. -/
theorem seg_prefix_peel (a : List Char) :
    ∀ b xs ys, '/' ∉ a → '/' ∉ b →
      (a ++ '/' :: xs) <+: (b ++ '/' :: ys) → a = b ∧ xs <+: ys := by
  induction a with
  | nil =>
    intro b xs ys _ hb hpre
    cases b with
    | nil =>
      simp only [List.nil_append, List.cons_prefix_cons] at hpre
      exact ⟨rfl, hpre.2⟩
    | cons ch b2 =>
      simp only [List.nil_append, List.cons_append, List.cons_prefix_cons] at hpre
      exact absurd (hpre.1 ▸ List.mem_cons_self ch b2) (hpre.1 ▸ hb)
  | cons ch a2 ih =>
    intro b xs ys ha hb hpre
    cases b with
    | nil =>
      simp only [List.cons_append, List.nil_append, List.cons_prefix_cons] at hpre
      exact absurd (hpre.1 ▸ List.mem_cons_self ch a2) (hpre.1 ▸ ha)
    | cons ch2 b2 =>
      simp only [List.cons_append, List.cons_prefix_cons] at hpre
      obtain ⟨hch, hrest⟩ := hpre
      have ha2 : '/' ∉ a2 := fun h => ha (List.mem_cons_of_mem _ h)
      have hb2 : '/' ∉ b2 := fun h => hb (List.mem_cons_of_mem _ h)
      obtain ⟨heq, hxs⟩ := ih b2 xs ys ha2 hb2 hrest
      exact ⟨by rw [hch, heq], hxs⟩

/-- Core of the path-confinement argument: if the `/`-joined rendering
of `r`, followed by a trailing separator, is a string prefix of the
rendering of `d`, and all components are nonempty and separator-free,
then `r` is a strict prefix of `d` as a component list. -/
theorem joinComps_prefix (r : List (List Char)) :
    ∀ d, (∀ c ∈ r, c ≠ [] ∧ '/' ∉ c) → (∀ c ∈ d, c ≠ [] ∧ '/' ∉ c) →
      (joinComps r ++ ['/']) <+: joinComps d → r <+: d ∧ r ≠ d := by
  induction r with
  | nil =>
    intro d _ hd hpre
    cases d with
    | nil =>
      simp only [joinComps, List.nil_append, List.prefix_nil] at hpre
      exact absurd hpre (by simp)
    | cons c d2 =>
      refine ⟨List.nil_prefix, fun h => List.noConfusion h⟩
  | cons c r2 ih =>
    intro d hr hd hpre
    obtain ⟨hcne, hcslash⟩ := hr c (List.mem_cons_self _ _)
    cases d with
    | nil =>
      simp only [joinComps, List.prefix_nil, List.append_eq_nil] at hpre
      exact absurd hpre.2 (by simp)
    | cons c2 d2 =>
      obtain ⟨hc2ne, hc2slash⟩ := hd c2 (List.mem_cons_self _ _)
      cases d2 with
      | nil =>
        -- target `joinComps [c2] = c2` contains no separator, but the
        -- prefix on the left ends with one: contradiction.
        exfalso
        have hsub : '/' ∈ c2 := by
          have := hpre.subset
          simp only [joinComps] at this
          exact this (by simp)
        exact hc2slash hsub
      | cons e d3 =>
        have hjoin2 : joinComps (c2 :: e :: d3) = c2 ++ '/' :: joinComps (e :: d3) := rfl
        cases r2 with
        | nil =>
          have hjoin1 : joinComps [c] ++ ['/'] = c ++ '/' :: ([] : List Char) := by
            simp [joinComps]
          rw [hjoin1, hjoin2] at hpre
          obtain ⟨heq, _⟩ := seg_prefix_peel c c2 [] (joinComps (e :: d3))
            hcslash hc2slash hpre
          subst heq
          refine ⟨List.cons_prefix_cons.mpr ⟨rfl, List.nil_prefix⟩, fun h => ?_⟩
          exact List.noConfusion (List.tail_eq_of_cons_eq h)
        | cons f r3 =>
          have hjoin1 : joinComps (c :: f :: r3) ++ ['/'] =
              c ++ '/' :: (joinComps (f :: r3) ++ ['/']) := by
            simp [joinComps]
          rw [hjoin1, hjoin2] at hpre
          obtain ⟨heq, hrest⟩ := seg_prefix_peel c c2 (joinComps (f :: r3) ++ ['/'])
            (joinComps (e :: d3)) hcslash hc2slash hpre
          subst heq
          obtain ⟨hp, hne⟩ := ih (e :: d3)
            (fun x hx => hr x (List.mem_cons_of_mem _ hx))
            (fun x hx => hd x (List.mem_cons_of_mem _ hx)) hrest
          refine ⟨List.cons_prefix_cons.mpr ⟨rfl, hp⟩, fun h => ?_⟩
          exact hne (List.tail_eq_of_cons_eq h)

/-- Lift `joinComps_prefix` to full renderings (leading slash). -/
theorem render_prefix (r d : List (List Char))
    (hr : ∀ c ∈ r, c ≠ [] ∧ '/' ∉ c) (hd : ∀ c ∈ d, c ≠ [] ∧ '/' ∉ c)
    (hpre : (render r ++ ['/']) <+: render d) : r <+: d ∧ r ≠ d := by
  have h : (joinComps r ++ ['/']) <+: joinComps d := by
    have := hpre
    simp only [render, List.cons_append, List.cons_prefix_cons] at this
    exact this.2
  exact joinComps_prefix r d hr hd h

theorem rootComps_props (root : List Char) :
    ∀ c ∈ normalize (splitOnSlash root), c ≠ [] ∧ '/' ∉ c :=
  normalize_props (splitOnSlash root) (splitOnSlash_no_slash root)

theorem joinedComps_props (root child : List Char) :
    ∀ c ∈ joinedComps root child, c ≠ [] ∧ '/' ∉ c := by
  unfold joinedComps
  by_cases h : isAbsolute child = true
  · rw [if_pos h]
    exact normalize_props (splitOnSlash child) (splitOnSlash_no_slash child)
  · rw [if_neg h]
    refine normalize_props _ ?_
    intro x hx
    rcases List.mem_append.mp hx with hx | hx
    · exact (rootComps_props root x hx).2
    · exact splitOnSlash_no_slash child x hx

/-! ### C1: path resolution never escapes the root -/

/-- C1: for every root directory and candidate relative path, path
resolution (`_resolve_under` / `safe_resolve_path`) either raises a
path-escapes-root error or returns a resolved path; whenever it
returns, the canonical root plus a path separator is a string prefix of
the returned path, and the returned path is a strict descendant of the
canonical root (the root's component list is a strict prefix of the
destination's). -/
theorem resolveUnder_never_escapes (root child out : List Char)
    (_hroot : isAbsolute root = true)
    (hok : resolveUnder root child = Except.ok out) :
    (render (normalize (splitOnSlash root)) ++ ['/']) <+: out ∧
    out = render (joinedComps root child) ∧
    normalize (splitOnSlash root) <+: joinedComps root child ∧
    normalize (splitOnSlash root) ≠ joinedComps root child := by
  simp only [resolveUnder] at hok
  by_cases hpre : List.isPrefixOf
      (render (normalize (splitOnSlash root)) ++ ['/'])
      (render (joinedComps root child)) = true
  · rw [if_pos hpre] at hok
    have hout : out = render (joinedComps root child) :=
      (Except.ok.injEq _ _ ▸ hok).symm
    have hp : (render (normalize (splitOnSlash root)) ++ ['/']) <+:
        render (joinedComps root child) :=
      List.isPrefixOf_iff_prefix.mp hpre
    obtain ⟨hdesc, hne⟩ := render_prefix _ _ (rootComps_props root)
      (joinedComps_props root child) hp
    exact ⟨hout ▸ hp, hout, hdesc, hne⟩
  · rw [if_neg hpre] at hok
    exact absurd hok (by simp)

/-- Witness for C1 at a concrete root and child. -/
theorem resolveUnder_never_escapes_witness :
    isAbsolute "/tmp/base".toList = true ∧
    resolveUnder "/tmp/base".toList "sub/f.txt".toList =
      Except.ok "/tmp/base/sub/f.txt".toList ∧
    ((render (normalize (splitOnSlash "/tmp/base".toList)) ++ ['/']) <+:
        "/tmp/base/sub/f.txt".toList ∧
      "/tmp/base/sub/f.txt".toList =
        render (joinedComps "/tmp/base".toList "sub/f.txt".toList) ∧
      normalize (splitOnSlash "/tmp/base".toList) <+:
        joinedComps "/tmp/base".toList "sub/f.txt".toList ∧
      normalize (splitOnSlash "/tmp/base".toList) ≠
        joinedComps "/tmp/base".toList "sub/f.txt".toList) :=
  ⟨rfl, rfl, resolveUnder_never_escapes _ _ _ rfl rfl⟩

/-! ## Safe archive extraction (`tools/safe_io.py`)

The extraction functions are modelled on the declared archive metadata
(the member lists `zf.infolist()` / `tf.getmembers()`), and return the
list of destination paths whose contents get written, paired with
`some errorMessage` when a `ValueError` aborts the extraction (the
writes performed before the abort are kept, mirroring the partially
populated destination directory). -/

example :
    safeExtractZip [⟨"a/b.txt".toList, 10, 5, false⟩] "/tmp/out".toList =
      (["/tmp/out/a/b.txt".toList], none) := by decide

example :
    (safeExtractZip [⟨"../evil".toList, 10, 5, false⟩] "/tmp/out".toList).2 =
      some "unsafe member" := by decide

/-! ### C3: count and size limits abort extraction before any write -/

/-! ### C3: count and size limits abort extraction before any write -/

/-- C3: for every archive whose regular-file entry count exceeds
`MAX_FILES` (10,000) or whose sum of declared uncompressed sizes
exceeds `MAX_TOTAL_BYTES` (2 GiB), `safe_extract_zip` /
`safe_extract_tar` raise an error with no entry written into the
destination. -/
theorem extract_limits_abort_before_writes :
    (∀ (es : List ZipEntry) (destDir : List Char),
      ((es.filter (fun i => !i.is_dir)).length > MAX_FILES ∨
        ((es.filter (fun i => !i.is_dir)).map (fun i => i.file_size)).sum >
          MAX_TOTAL_BYTES) →
      ∃ msg, safeExtractZip es destDir = ([], some msg)) ∧
    (∀ (ms : List TarMember) (destDir : List Char),
      ((ms.filter (fun m => m.is_reg)).length > MAX_FILES ∨
        ((ms.filter (fun m => m.is_reg)).map (fun m => m.size)).sum >
          MAX_TOTAL_BYTES) →
      ∃ msg, safeExtractTar ms destDir = ([], some msg)) := by
  constructor
  · intro es destDir hcond
    simp only [safeExtractZip]
    by_cases h1 : (es.filter (fun i => !i.is_dir)).length > MAX_FILES
    · rw [if_pos h1]
      exact ⟨"archive has too many files", rfl⟩
    · rw [if_neg h1]
      have h2 : ((es.filter (fun i => !i.is_dir)).map (fun i => i.file_size)).sum >
          MAX_TOTAL_BYTES := hcond.resolve_left h1
      rw [if_pos h2]
      exact ⟨"archive too large", rfl⟩
  · intro ms destDir hcond
    simp only [safeExtractTar]
    by_cases h1 : (ms.filter (fun m => m.is_reg)).length > MAX_FILES
    · rw [if_pos h1]
      exact ⟨"archive has too many files", rfl⟩
    · rw [if_neg h1]
      have h2 : ((ms.filter (fun m => m.is_reg)).map (fun m => m.size)).sum >
          MAX_TOTAL_BYTES := hcond.resolve_left h1
      rw [if_pos h2]
      exact ⟨"archive too large", rfl⟩

/-- Witness for C3: a one-entry ZIP and a one-member TAR each declaring
more than 2 GiB abort with no writes. -/
theorem extract_limits_abort_before_writes_witness :
    (∃ msg, safeExtractZip [⟨"big.bin".toList, 2 * 1024 ^ 3 + 1, 5, false⟩]
      "/tmp/out".toList = ([], some msg)) ∧
    (∃ msg, safeExtractTar [⟨"big.bin".toList, 2 * 1024 ^ 3 + 1, true⟩]
      "/tmp/out".toList = ([], some msg)) :=
  ⟨extract_limits_abort_before_writes.1 _ _ (Or.inr (by decide)),
   extract_limits_abort_before_writes.2 _ _ (Or.inr (by decide))⟩

/-! ### C2: the expansion-ratio guard -/

/-! ### C2: the expansion-ratio guard -/

theorem resolveUnder_error_msg (root child : List Char) (msg : String)
    (h : resolveUnder root child = Except.error msg) :
    msg = "unsafe path outside root" := by
  simp only [resolveUnder] at h
  by_cases hpre : List.isPrefixOf
      (render (normalize (splitOnSlash root)) ++ ['/'])
      (render (joinedComps root child)) = true
  · rw [if_pos hpre] at h
    exact absurd h (by simp)
  · rw [if_neg hpre] at h
    have := Except.error.inj h
    exact this.symm

/-- The extraction loop aborts only on a bad member name or a
path-escape; in particular it can never produce the expansion-ratio
error message. -/
theorem extractLoop_error_msgs (destDir : List Char) (names : List (List Char)) :
    ∀ written, (extractLoop destDir names written).2 = none ∨
      (extractLoop destDir names written).2 = some "unsafe member" ∨
      (extractLoop destDir names written).2 = some "unsafe path outside root" := by
  induction names with
  | nil => intro written; exact Or.inl rfl
  | cons name rest ih =>
    intro written
    simp only [extractLoop]
    by_cases hb : badMemberName name = true
    · rw [if_pos hb]
      exact Or.inr (Or.inl rfl)
    · rw [if_neg hb]
      cases hres : resolveUnder destDir name with
      | error msg =>
        right; right
        simp only [resolveUnder_error_msg destDir name msg hres]
      | ok target =>
        exact ih (target :: written)

/-- C2 counterexample: a one-member TAR archive declaring 1000
uncompressed bytes, stored in a compressed archive file of 10 bytes,
has an uncompressed-to-compressed ratio of 100 — far above the
configured maximum of 20 — yet `safe_extract_tar` extracts it without
any error and writes the member: the TAR path enforces no
expansion-ratio guard. -/
theorem tar_ratio_unenforced_cex :
    MAX_EXPANSION < mkRat 1000 10 ∧
    safeExtractTar [⟨"data.bin".toList, 1000, true⟩] "/tmp/dest".toList =
      (["/tmp/dest/data.bin".toList], none) :=
  ⟨by decide, by decide⟩

/-- C2 (amended): the expansion-ratio guard holds for ZIP archives —
every ZIP whose total declared uncompressed size exceeds
`MAX_EXPANSION` times `max(total_c, 1)` (with per-entry compressed
size `compress_size or 1`) fails with an error before any write —
while `safe_extract_tar` never raises the expansion-ratio error. -/
theorem zip_ratio_guard_tar_unchecked :
    (∀ (es : List ZipEntry) (destDir : List Char),
      MAX_EXPANSION < mkRat
        (((((es.filter (fun i => !i.is_dir)).map (fun i => i.file_size)).sum : Nat)) : Int)
        (Nat.max ((es.filter (fun i => !i.is_dir)).map (fun i =>
          if i.compress_size = 0 then 1 else i.compress_size)).sum 1) →
      ∃ msg, safeExtractZip es destDir = ([], some msg)) ∧
    (∀ (ms : List TarMember) (destDir : List Char),
      (safeExtractTar ms destDir).2 ≠ some "suspicious expansion ratio") := by
  constructor
  · intro es destDir hratio
    simp only [safeExtractZip]
    by_cases h1 : (es.filter (fun i => !i.is_dir)).length > MAX_FILES
    · rw [if_pos h1]
      exact ⟨"archive has too many files", rfl⟩
    · rw [if_neg h1]
      by_cases h2 : ((es.filter (fun i => !i.is_dir)).map (fun i => i.file_size)).sum >
          MAX_TOTAL_BYTES
      · rw [if_pos h2]
        exact ⟨"archive too large", rfl⟩
      · rw [if_neg h2, if_pos hratio]
        exact ⟨"suspicious expansion ratio", rfl⟩
  · intro ms destDir
    simp only [safeExtractTar]
    by_cases h1 : (ms.filter (fun m => m.is_reg)).length > MAX_FILES
    · rw [if_pos h1]
      simp
    · rw [if_neg h1]
      by_cases h2 : ((ms.filter (fun m => m.is_reg)).map (fun m => m.size)).sum >
          MAX_TOTAL_BYTES
      · rw [if_pos h2]
        simp
      · rw [if_neg h2]
        rcases extractLoop_error_msgs destDir
          ((ms.filter (fun m => m.is_reg)).map (fun m => m.name)) [] with h | h | h
        all_goals rw [h]
        · simp
        · simp
        · simp

/-- Witness for the amended C2 at a concrete high-ratio ZIP archive. -/
theorem zip_ratio_guard_tar_unchecked_witness :
    (MAX_EXPANSION < mkRat
      ((((([⟨"a.bin".toList, 1000, 10, false⟩] :
          List ZipEntry).filter (fun i => !i.is_dir)).map (fun i => i.file_size)).sum : Nat) : Int)
      (Nat.max ((([⟨"a.bin".toList, 1000, 10, false⟩] :
          List ZipEntry).filter (fun i => !i.is_dir)).map (fun i =>
            if i.compress_size = 0 then 1 else i.compress_size)).sum 1)) ∧
    (∃ msg, safeExtractZip [⟨"a.bin".toList, 1000, 10, false⟩]
      "/tmp/out".toList = ([], some msg)) ∧
    (safeExtractTar [⟨"data.bin".toList, 1000, true⟩] "/tmp/dest".toList).2 ≠
      some "suspicious expansion ratio" :=
  ⟨by decide, zip_ratio_guard_tar_unchecked.1 _ _ (by decide),
    zip_ratio_guard_tar_unchecked.2 _ _⟩

/-! ## Shard validator (`tools/validate.py`)

### The controls QAT stage

`GAPValidator.validate_controls` operates on the loaded timestamp
column (`ts_us`, the JSONL field `t_us` after renaming).  The loaded
column values are `int64`, embedded as `Int`. -/

/-! ### C4 and C10: the controls QAT stage -/

theorem ratDiv_eq (a b : ℚ) : ratDiv a b = a / b := by
  rw [ratDiv, Rat.divInt_eq_div]
  rcases eq_or_ne b 0 with hb | hb
  · subst hb
    simp
  · have hbnum : (b.num : ℚ) ≠ 0 := by
      exact_mod_cast Rat.num_ne_zero.mpr hb
    have haden : ((a.den : ℚ)) ≠ 0 := by
      exact_mod_cast a.den_ne_zero
    have hbden : ((b.den : ℚ)) ≠ 0 := by
      exact_mod_cast b.den_ne_zero
    push_cast
    rw [div_eq_div_iff (mul_ne_zero haden hbnum) hb]
    have ha : (a.num : ℚ) = a * a.den := (div_eq_iff haden).mp (Rat.num_div_den a)
    have hb2 : (b.num : ℚ) = b * b.den := (div_eq_iff hbden).mp (Rat.num_div_den b)
    rw [ha, hb2]
    ring

theorem expectedSamples_eq (first tlast : Int) :
    expectedSamples first tlast =
      ((tlast - first : Int) : ℚ) / ((1000000 * 60 : Nat) : ℚ) * 60 * 60 := by
  rw [expectedSamples, Rat.divInt_eq_div]
  push_cast
  ring

example : (controlsQat [100, 200, 300]).1 = [] := by decide

example : (controlsQat [100, 200, 150]).1 = [monotonicError] := by decide

/-- C4: the spec requires the hard error exactly when the timestamp
sequence is not strictly increasing, and the code's own error message
says \"not strictly monotonic\"; but `is_monotonic_increasing` is
pandas' NON-strict test, so the failing input `[100, 100]` — not
strictly increasing — produces no error, while `[100, 200, 150]` does
produce it.  The code contradicts its own error message and the spec's
invariant: a code bug. -/
theorem monotonic_check_is_nonstrict :
    strictlyIncreasing [100, 100] = false ∧
    (controlsQat [100, 100]).1 = [] ∧
    isMonotonicIncreasing [100, 100] = true ∧
    (controlsQat [100, 200, 150]).1 = [monotonicError] := by decide

/-- C10 counterexample: on timestamps `[100, 100]` (more than one
event, first equals last) the drift denominator `expected_samples` is
zero, yet the stage does not raise: under the runtime's
`numpy.float64` semantics the division yields `+inf`, the drift
condition is true, and the stage returns normally with the drift
warning recorded and no error. -/
theorem drift_divzero_no_exception_cex :
    expectedSamples 100 100 = 0 ∧
    controlsQat [100, 100] = ([], [driftWarningMsg]) := by decide

/-- C10 (amended): for every loadable control stream with more than
one event whose first and last timestamps are equal, the drift
heuristic divides by zero; on `numpy.float64` scalars this yields
`+inf` rather than raising, the drift condition holds, and validation
returns a report with the drift warning recorded (no uncaught
exception). -/
theorem drift_divzero_yields_warning (t0 : Int) (ts : List Int)
    (hlen : ts.length > 1) (hhead : ts.head? = some t0)
    (hlast : ts.getLast? = some t0) :
    (controlsQat ts).2 = [driftWarningMsg] := by
  match ts with
  | [] => simp at hlen
  | [a] => simp at hlen
  | a :: b :: rest =>
    have ha : a = t0 := by
      simpa using hhead
    have hlastD : (a :: b :: rest).getLastD 0 = t0 := by
      rw [List.getLastD_eq_getLast?, hlast]
      rfl
    have hzero : expectedSamples a ((a :: b :: rest).getLastD 0) = 0 := by
      rw [hlastD, ha]
      simp [expectedSamples, sub_self]
    simp only [controlsQat]
    rw [if_pos hzero]

/-- Witness for the amended C10 at timestamps `[100, 100]`. -/
theorem drift_divzero_yields_warning_witness :
    ([100, 100] : List Int).length > 1 ∧
    ([100, 100] : List Int).head? = some 100 ∧
    ([100, 100] : List Int).getLast? = some 100 ∧
    (controlsQat [100, 100]).2 = [driftWarningMsg] :=
  ⟨by decide, rfl, rfl,
    drift_divzero_yields_warning 100 [100, 100] (by decide) rfl rfl⟩

/-! ## Admission scorer (`tools/ingest_check.py::run_anti_sybil_checks`)

The risk scoring of the two minimum Hamming distances (lines 58-86):
sequential accumulation of video points and control points followed by
the threshold ladder. -/

/-! ### C6: the admission scorer -/

/-- C6: the admission scorer is the deterministic order-independent
function of the two minimum distances described by the spec: the score
is the sum of the video points (40/20/0) and control points (30/15/0),
the action follows the 80/50/30 ladder, and in particular distances
(5, 5) give score 70 with action \"flag\" and distances (50, 50) give
score 0 with action \"accept\". -/
theorem admission_scorer_matches_spec :
    (∀ v c, (runAntiSybilScore v c).risk_score = specVideoPoints v + specControlPoints c ∧
      (runAntiSybilScore v c).action = specAction (specVideoPoints v + specControlPoints c)) ∧
    (runAntiSybilScore 5 5).risk_score = 70 ∧
    (runAntiSybilScore 5 5).action = "flag" ∧
    (runAntiSybilScore 50 50).risk_score = 0 ∧
    (runAntiSybilScore 50 50).action = "accept" := by
  refine ⟨fun v c => ?_, by decide, by decide, by decide, by decide⟩
  simp only [runAntiSybilScore, specVideoPoints, specControlPoints, specAction]
  split_ifs <;> simp_all

/-! ## Duplicate detection (`gap_agent/dedupe.py`)

### The perceptual hash (`phash`)

The DCT and resizing are OpenCV calls; the embedding covers what the
source does with the flattened coefficient block `dct_flat` (a list of
float32 coefficients, embedded as exact rationals): compute
`np.median(dct_flat[1:])` and threshold every coefficient of
`dct_flat` (the zero-frequency DC term included) against it. -/

/-! ### C7: the perceptual hash and the DC term -/

/-- C7 counterexample: two coefficient blocks of the standard 8×8 size
that agree on every coefficient except the zero-frequency (DC) term
produce different fingerprints — differing exactly in bit 0 — so the
DC term does contribute a bit, contrary to the claim. -/
theorem phash_dc_contributes_cex :
    ((100 : ℚ) :: List.replicate 63 0).length = 64 ∧
    ((100 : ℚ) :: List.replicate 63 0).tail = ((-100 : ℚ) :: List.replicate 63 0).tail ∧
    phashInt ((100 : ℚ) :: List.replicate 63 0) = 1 ∧
    phashInt ((-100 : ℚ) :: List.replicate 63 0) = 0 := by
  refine ⟨by decide, rfl, by decide, by decide⟩

/-- C7 (amended): the median is indeed computed excluding the DC term,
but the thresholding runs over ALL coefficients including the DC term:
the fingerprint of a block is the DC bit `median < dc` (bit 0)
combined with the bits of the non-DC coefficients thresholded against
that same DC-excluding median. -/
theorem phash_thresholds_all_including_dc (dc : ℚ) (rest : List ℚ) :
    phashBits (dc :: rest) =
      decide (npMedian rest < dc) :: rest.map (fun v => decide (npMedian rest < v)) ∧
    phashInt (dc :: rest) =
      (if npMedian rest < dc then 1 else 0) +
        2 * bitsToNat (rest.map (fun v => decide (npMedian rest < v))) := by
  constructor
  · simp [phashBits]
  · simp only [phashInt, phashBits, List.drop_succ_cons, List.drop_zero, List.map_cons,
      bitsToNat]
    by_cases h : npMedian rest < dc
    · simp [h]
    · simp [h]

/-! ### The fingerprint cache (`dedupe.py::update_cache`)

The cache file is a JSON object with `video_hashes` and
`control_hashes` lists.  The per-frame perceptual hashes and the
single control SimHash are computed by external libraries; the
embedding takes the computed values as inputs and covers the cache
update itself. -/

/-! ### C9: the cache update is append-only -/

theorem foldl_addHashIfNew (fh : List Nat) :
    ∀ l, ∃ extra, fh.foldl addHashIfNew l = l ++ extra ∧ extra.Nodup ∧
      ∀ h ∈ extra, h ∉ l ∧ h ∈ fh := by
  induction fh with
  | nil =>
    intro l
    exact ⟨[], by simp, List.nodup_nil, by simp⟩
  | cons x rest ih =>
    intro l
    simp only [List.foldl_cons]
    by_cases hx : x ∈ l
    · have : addHashIfNew l x = l := by simp [addHashIfNew, hx]
      rw [this]
      obtain ⟨extra, he, hnd, hp⟩ := ih l
      exact ⟨extra, he, hnd, fun h hh =>
        ⟨(hp h hh).1, List.mem_cons_of_mem _ (hp h hh).2⟩⟩
    · have : addHashIfNew l x = l ++ [x] := by simp [addHashIfNew, hx]
      rw [this]
      obtain ⟨extra, he, hnd, hp⟩ := ih (l ++ [x])
      refine ⟨x :: extra, by simpa using he, ?_, ?_⟩
      · refine List.nodup_cons.mpr ⟨fun hmem => ?_, hnd⟩
        have := (hp x hmem).1
        simp at this
      · intro h hh
        rcases List.mem_cons.mp hh with h1 | h1
        · subst h1
          exact ⟨hx, List.mem_cons_self _ _⟩
        · have := hp h h1
          refine ⟨fun hl => this.1 (List.mem_append_left _ hl),
            List.mem_cons_of_mem _ this.2⟩

/-- C9: the cache update is append-only — after `update_cache`, the new
video set is the old one followed by fresh hashes only (no existing
entry removed or overwritten, no duplicate introduced), each new entry
coming from the computed frame hashes; similarly for the control set
and the computed control hash. -/
theorem updateCache_append_only (cache : FingerprintCache) (fh : List Nat)
    (ch : Option Nat) :
    ∃ extraV extraC,
      (updateCache cache fh ch).video_hashes = cache.video_hashes ++ extraV ∧
      (updateCache cache fh ch).control_hashes = cache.control_hashes ++ extraC ∧
      extraV.Nodup ∧ (∀ h ∈ extraV, h ∉ cache.video_hashes ∧ h ∈ fh) ∧
      extraC.Nodup ∧ (∀ h ∈ extraC, h ∉ cache.control_hashes ∧ ch = some h) := by
  obtain ⟨extraV, he, hnd, hp⟩ := foldl_addHashIfNew fh cache.video_hashes
  match ch with
  | none =>
    exact ⟨extraV, [], he, by simp [updateCache], hnd, hp, List.nodup_nil, by simp⟩
  | some h0 =>
    by_cases hh : h0 ∈ cache.control_hashes
    · refine ⟨extraV, [], he, ?_, hnd, hp, List.nodup_nil, by simp⟩
      simp [updateCache, addHashIfNew, hh]
    · refine ⟨extraV, [h0], he, ?_, hnd, hp, List.nodup_singleton h0, ?_⟩
      · simp [updateCache, addHashIfNew, hh]
      · intro h hmem
        rcases List.mem_singleton.mp hmem with rfl
        exact ⟨hh, rfl⟩

/-! ## The full validation run (`GAPValidator.validate_all`)

Embedded for the profile-independent instantiation
(`profile=None`, `strict=False`), in which
`validate_profile_specific` returns `True` without touching the
error/warning lists.  A shard is modelled by what the validator can
observe of it: which files exist, what the loaders produce for each,
and the file contents hashed by the integrity stage.  Long
interpolated message texts are kept as stable prefixes/tags. -/

/-! ### C5: the integrity-hash stage -/

theorem hashCheck_mismatch_mem (digest : List Nat → String)
    (files : List (String × List Nat)) (mapping : List (String × String)) :
    ∀ fn expected content, (fn, expected) ∈ mapping →
      lookupAssoc files fn = some content → digest content ≠ expected →
      ("Hash mismatch for " ++ fn ++ ": expected " ++ expected ++
        ", got " ++ digest content) ∈ (hashCheckEntries digest files mapping).1 := by
  induction mapping with
  | nil =>
    intro fn expected content hmem
    simp at hmem
  | cons e rest ih =>
    intro fn expected content hmem hlook hne
    obtain ⟨fn2, expected2⟩ := e
    rcases List.mem_cons.mp hmem with hhead | htail
    · obtain ⟨h1, h2⟩ := Prod.mk.injEq .. ▸ hhead
      subst h1
      subst h2
      simp only [hashCheckEntries, hlook]
      rw [if_neg hne]
      exact List.mem_cons_self _ _
    · have hmem2 := ih fn expected content htail hlook hne
      simp only [hashCheckEntries]
      split
      · exact hmem2
      · split
        · exact hmem2
        · exact List.mem_cons_of_mem _ hmem2

theorem hashCheck_missing_mem (digest : List Nat → String)
    (files : List (String × List Nat)) (mapping : List (String × String)) :
    ∀ fn expected, (fn, expected) ∈ mapping → lookupAssoc files fn = none →
      ("Hash entry for non-existent file: " ++ fn) ∈
        (hashCheckEntries digest files mapping).2 := by
  induction mapping with
  | nil =>
    intro fn expected hmem
    simp at hmem
  | cons e rest ih =>
    intro fn expected hmem hlook
    obtain ⟨fn2, expected2⟩ := e
    rcases List.mem_cons.mp hmem with hhead | htail
    · obtain ⟨h1, h2⟩ := Prod.mk.injEq .. ▸ hhead
      subst h1
      subst h2
      simp only [hashCheckEntries, hlook]
      exact List.mem_cons_self _ _
    · have hmem2 := ih fn expected htail hlook
      simp only [hashCheckEntries]
      split
      · exact List.mem_cons_of_mem _ hmem2
      · split
        · exact hmem2
        · exact hmem2

theorem hashCheck_all_match (digest : List Nat → String)
    (files : List (String × List Nat)) (mapping : List (String × String))
    (hall : ∀ e ∈ mapping, hashEntryOk digest files e = true) :
    (hashCheckEntries digest files mapping).1 = [] := by
  induction mapping with
  | nil => rfl
  | cons e rest ih =>
    obtain ⟨fn, expected⟩ := e
    have hrest := ih (fun x hx => hall x (List.mem_cons_of_mem _ hx))
    have hhead := hall (fn, expected) (List.mem_cons_self _ _)
    simp only [hashCheckEntries]
    split
    · exact hrest
    · rename_i content heq
      simp only [hashEntryOk, heq, beq_iff_eq] at hhead
      rw [if_pos hhead]
      exact hrest

/-- C5: for every loadable `hashes.json` with a `sha256` mapping, the
hashes stage records a hard error naming the file for every referenced
existing file whose recomputed digest differs from the recorded one;
records a warning (never an error) for every manifest entry whose file
does not exist; and records no error at all when every existing
referenced file matches its recorded digest. -/
theorem validate_hashes_spec (digest : List Nat → String)
    (files : List (String × List Nat)) (mapping : List (String × String)) :
    (∀ fn expected content, (fn, expected) ∈ mapping →
      lookupAssoc files fn = some content → digest content ≠ expected →
      ("Hash mismatch for " ++ fn ++ ": expected " ++ expected ++
        ", got " ++ digest content) ∈
        (validateHashesErrW digest files (some (some mapping))).1) ∧
    (∀ fn expected, (fn, expected) ∈ mapping → lookupAssoc files fn = none →
      ("Hash entry for non-existent file: " ++ fn) ∈
        (validateHashesErrW digest files (some (some mapping))).2) ∧
    ((∀ e ∈ mapping, hashEntryOk digest files e = true) →
      (validateHashesErrW digest files (some (some mapping))).1 = []) :=
  ⟨hashCheck_mismatch_mem digest files mapping,
   hashCheck_missing_mem digest files mapping,
   hashCheck_all_match digest files mapping⟩

/-- Witness for C5: a shard with files `f ↦ [1]`, `g ↦ [2]`; the
manifest records a wrong digest for `g` (mismatch error naming `g`), an
entry for the non-existent `h` (warning), and on an all-matching
manifest the stage records no error. -/
theorem validate_hashes_spec_witness :
    (("g", "zzz") ∈ [("f", "aaa"), ("g", "zzz"), ("h", "ccc")] ∧
      lookupAssoc [("f", [1]), ("g", [2])] "g" = some [2] ∧
      digestToy [2] ≠ "zzz" ∧
      ("Hash mismatch for " ++ "g" ++ ": expected " ++ "zzz" ++
        ", got " ++ digestToy [2]) ∈
        (validateHashesErrW digestToy [("f", [1]), ("g", [2])]
          (some (some [("f", "aaa"), ("g", "zzz"), ("h", "ccc")]))).1) ∧
    (("h", "ccc") ∈ [("f", "aaa"), ("g", "zzz"), ("h", "ccc")] ∧
      lookupAssoc [("f", [1]), ("g", [2])] "h" = none ∧
      ("Hash entry for non-existent file: " ++ "h") ∈
        (validateHashesErrW digestToy [("f", [1]), ("g", [2])]
          (some (some [("f", "aaa"), ("g", "zzz"), ("h", "ccc")]))).2) ∧
    (validateHashesErrW digestToy [("f", [1]), ("g", [2])]
      (some (some [("f", "aaa"), ("g", "bbb")]))).1 = [] :=
  ⟨⟨by decide, by decide, by decide,
    (validate_hashes_spec digestToy [("f", [1]), ("g", [2])]
      [("f", "aaa"), ("g", "zzz"), ("h", "ccc")]).1 "g" "zzz" [2]
      (by decide) (by decide) (by decide)⟩,
   ⟨by decide,  by decide,
    (validate_hashes_spec digestToy [("f", [1]), ("g", [2])]
      [("f", "aaa"), ("g", "zzz"), ("h", "ccc")]).2.1 "h" "ccc"
      (by decide) (by decide)⟩,
   (validate_hashes_spec digestToy [("f", [1]), ("g", [2])]
      [("f", "aaa"), ("g", "bbb")]).2.2 (by decide)⟩

/-! ### C8: stage booleans in the report -/

/-! ### C8: stage booleans in the report -/

/-- C8 counterexample: on `cexShard` the controls stage itself records
no error, yet the report's `controls` boolean is `False` because the
meta stage recorded an error first — the stage booleans reflect the
accumulated error list, not each stage's own result. -/
theorem stage_bool_not_independent_cex :
    (validateControlsErrW cexShard).1 = [] ∧
    (validateMetaErrW cexShard.metaLoad).1 = ["Failed to load meta.json"] ∧
    (validateAll (fun _ => "") cexShard).checkControls = false := by
  refine ⟨by decide, by decide, by decide⟩

/-- C8 (amended): when the file-structure stage records no errors, the
report's `meta` boolean is the emptiness of the meta stage's errors,
but the `controls` and `hashes` booleans are the emptiness of the
ACCUMULATED errors of all stages run so far (so an earlier stage's
error makes them `False` even when the stage itself was clean); the
overall `valid` flag is `True` exactly when the accumulated error list
is empty. -/
theorem stage_bools_cumulative (digest : List Nat → String) (s : Shard)
    (hfs : (validateFileStructureErrW s.files).1 = []) :
    (validateAll digest s).valid = (validateAll digest s).errors.isEmpty ∧
    (validateAll digest s).checkMeta = (validateMetaErrW s.metaLoad).1.isEmpty ∧
    (validateAll digest s).checkControls =
      ((validateMetaErrW s.metaLoad).1 ++ (validateControlsErrW s).1).isEmpty ∧
    (validateAll digest s).checkHashes =
      ((validateMetaErrW s.metaLoad).1 ++ (validateControlsErrW s).1 ++
        (validateHashesErrW digest s.fileContents s.hashesLoad).1).isEmpty := by
  simp [validateAll, hfs]

/-- Witness for the amended C8 at the concrete shard `cexShard`. -/
theorem stage_bools_cumulative_witness :
    (validateFileStructureErrW cexShard.files).1 = [] ∧
    ((validateAll (fun _ => "") cexShard).valid =
      (validateAll (fun _ => "") cexShard).errors.isEmpty ∧
    (validateAll (fun _ => "") cexShard).checkMeta =
      (validateMetaErrW cexShard.metaLoad).1.isEmpty ∧
    (validateAll (fun _ => "") cexShard).checkControls =
      ((validateMetaErrW cexShard.metaLoad).1 ++
        (validateControlsErrW cexShard).1).isEmpty ∧
    (validateAll (fun _ => "") cexShard).checkHashes =
      ((validateMetaErrW cexShard.metaLoad).1 ++ (validateControlsErrW cexShard).1 ++
        (validateHashesErrW (fun _ => "") cexShard.fileContents
          cexShard.hashesLoad).1).isEmpty) :=
  ⟨by decide, stage_bools_cumulative (fun _ => "") cexShard (by decide)⟩

end GAP
